import Mathlib

/-!
Verification of the `regez` wrapper (src/lib/regez/regez.h).

The wrapper is two C functions over a process-wide `regex_t re` slot:

  int compile(char const *pattern) - regcomp(&re, pattern, REG_EXTENDED)
  int isMatch(char const *input)  - regexec(&re, input, 0, pmatch, 0)

The POSIX regex engine itself (regcomp/regexec from <regex.h>) is not part
of this repository, so it is modelled here from the specification: a POSIX
extended-regular-expression (ERE) abstract syntax, an inductive matching
semantics, an executable Brzozowski-derivative matcher proved equivalent to
the semantics, and an ERE parser for the extended dialect.
-/

namespace Regez

/-- Regular-expression abstract syntax over `Char`, with character classes
given by a boolean predicate (covering literals, `.`, and bracket
expressions). -/
inductive RE : Type
| emptyR : RE
| epsR : RE
| cls : (Char → Bool) → RE
| cat : RE → RE → RE
| alt : RE → RE → RE
| star : RE → RE

/-- Modelled from the spec: the matching semantics of POSIX extended regular
expressions, as the inductively defined language of a regex. -/
inductive Matches : RE → List Char → Prop
| eps : Matches RE.epsR []
| cls {p : Char → Bool} {c : Char} : p c = true → Matches (RE.cls p) [c]
| cat {r s : RE} {u v : List Char} :
    Matches r u → Matches s v → Matches (RE.cat r s) (u ++ v)
| altL {r s : RE} {u : List Char} : Matches r u → Matches (RE.alt r s) u
| altR {r s : RE} {u : List Char} : Matches s u → Matches (RE.alt r s) u
| starNil {r : RE} : Matches (RE.star r) []
| starCons {r : RE} {u v : List Char} :
    u ≠ [] → Matches r u → Matches (RE.star r) v → Matches (RE.star r) (u ++ v)

/-- Whether a regex accepts the empty string. -/
def nullable : RE → Bool
| RE.emptyR => false
| RE.epsR => true
| RE.cls _ => false
| RE.cat r s => nullable r && nullable s
| RE.alt r s => nullable r || nullable s
| RE.star _ => true

/-- Brzozowski derivative of a regex by one character. -/
def deriv (c : Char) : RE → RE
| RE.emptyR => RE.emptyR
| RE.epsR => RE.emptyR
| RE.cls p => if p c then RE.epsR else RE.emptyR
| RE.cat r s =>
    if nullable r then RE.alt (RE.cat (deriv c r) s) (deriv c s)
    else RE.cat (deriv c r) s
| RE.alt r s => RE.alt (deriv c r) (deriv c s)
| RE.star r => RE.cat (deriv c r) (RE.star r)

/-- Executable matcher by repeated derivatives. -/
def rmatch : RE → List Char → Bool
| r, [] => nullable r
| r, c :: cs => rmatch (deriv c r) cs

theorem nullable_sound : ∀ {r : RE}, nullable r = true → Matches r []
| RE.epsR, _ => Matches.eps
| RE.cat r s, h => by
    rw [nullable, Bool.and_eq_true] at h
    exact (List.nil_append (α := Char) []) ▸
      Matches.cat (nullable_sound h.1) (nullable_sound h.2)
| RE.alt r s, h => by
    rw [nullable, Bool.or_eq_true] at h
    cases h with
    | inl h => exact Matches.altL (nullable_sound h)
    | inr h => exact Matches.altR (nullable_sound h)
| RE.star r, _ => Matches.starNil

theorem nullable_complete {r : RE} {w : List Char}
    (h : Matches r w) : w = [] → nullable r = true := by
  induction h with
  | eps => intro _; rfl
  | cls _ => intro h; cases h
  | cat _ _ ih1 ih2 =>
      intro h
      rcases List.append_eq_nil.mp h with ⟨h1, h2⟩
      rw [nullable, Bool.and_eq_true]
      exact ⟨ih1 h1, ih2 h2⟩
  | altL _ ih =>
      intro h
      rw [nullable, Bool.or_eq_true]
      exact Or.inl (ih h)
  | altR _ ih =>
      intro h
      rw [nullable, Bool.or_eq_true]
      exact Or.inr (ih h)
  | starNil => intro _; rfl
  | starCons _ _ _ _ _ => intro _; rfl

theorem nullable_iff {r : RE} : nullable r = true ↔ Matches r [] :=
  ⟨nullable_sound, fun h => nullable_complete h rfl⟩

theorem deriv_sound : ∀ {r : RE} {c : Char} {w : List Char},
    Matches (deriv c r) w → Matches r (c :: w) := by
  intro r
  induction r with
  | emptyR => intro c w h; cases h
  | epsR => intro c w h; cases h
  | cls p =>
      intro c w h
      rw [deriv] at h
      by_cases hp : p c = true
      · rw [if_pos hp] at h
        cases h
        exact Matches.cls hp
      · rw [if_neg hp] at h
        cases h
  | cat r s ihr ihs =>
      intro c w h
      rw [deriv] at h
      by_cases hn : nullable r = true
      · rw [if_pos hn] at h
        cases h with
        | altL h =>
            cases h with
            | cat h1 h2 =>
                exact List.cons_append _ _ _ ▸ Matches.cat (ihr h1) h2
        | altR h =>
            have h0 : Matches r [] := nullable_sound hn
            have h1 := Matches.cat h0 (ihs h)
            rwa [List.nil_append] at h1
      · rw [if_neg hn] at h
        cases h with
        | cat h1 h2 =>
            exact List.cons_append _ _ _ ▸ Matches.cat (ihr h1) h2
  | alt r s ihr ihs =>
      intro c w h
      rw [deriv] at h
      cases h with
      | altL h => exact Matches.altL (ihr h)
      | altR h => exact Matches.altR (ihs h)
  | star r ihr =>
      intro c w h
      rw [deriv] at h
      cases h with
      | cat h1 h2 =>
          exact List.cons_append _ _ _ ▸
            Matches.starCons (List.cons_ne_nil _ _) (ihr h1) h2

theorem deriv_complete {r : RE} {w : List Char} (h : Matches r w) :
    ∀ {c : Char} {w' : List Char}, w = c :: w' → Matches (deriv c r) w' := by
  induction h with
  | eps => intro c w' h; cases h
  | cls hp =>
      intro c w' h
      rw [List.cons_eq_cons] at h
      obtain ⟨rfl, rfl⟩ := h
      rw [deriv, if_pos hp]
      exact Matches.eps
  | @cat r s u v h1 h2 ih1 ih2 =>
      intro c w' h
      rw [deriv]
      cases u with
      | nil =>
          have hn : nullable r = true := nullable_complete h1 rfl
          rw [if_pos hn]
          rw [List.nil_append] at h
          exact Matches.altR (ih2 h)
      | cons a u2 =>
          rw [List.cons_append, List.cons_eq_cons] at h
          obtain ⟨rfl, rfl⟩ := h
          by_cases hn : nullable r = true
          · rw [if_pos hn]
            exact Matches.altL (Matches.cat (ih1 rfl) h2)
          · rw [if_neg hn]
            exact Matches.cat (ih1 rfl) h2
  | altL _ ih =>
      intro c w' h
      rw [deriv]
      exact Matches.altL (ih h)
  | altR _ ih =>
      intro c w' h
      rw [deriv]
      exact Matches.altR (ih h)
  | starNil => intro c w' h; cases h
  | @starCons r u v hne h1 h2 ih1 ih2 =>
      intro c w' h
      rw [deriv]
      cases u with
      | nil => exact absurd rfl hne
      | cons a u2 =>
          rw [List.cons_append, List.cons_eq_cons] at h
          obtain ⟨rfl, rfl⟩ := h
          exact Matches.cat (ih1 rfl) h2

theorem rmatch_iff : ∀ (r : RE) (w : List Char), rmatch r w = true ↔ Matches r w := by
  intro r w
  induction w generalizing r with
  | nil => exact nullable_iff
  | cons c cs ih =>
      rw [rmatch]
      constructor
      · intro h
        exact deriv_sound ((ih (deriv c r)).mp h)
      · intro h
        exact (ih (deriv c r)).mpr (deriv_complete h rfl)

/-- The class matching any character (the ERE dot, with no REG_NEWLINE the
dot excludes nothing relevant to C-string subjects). -/
def anyChar : RE := RE.cls (fun _ => true)

/-- A regex matching every string, used to pad unanchored searches. -/
def dotStar : RE := RE.star anyChar

theorem dotStar_matches : ∀ (w : List Char), Matches dotStar w
| [] => Matches.starNil
| c :: cs => by
    have h := Matches.starCons (r := anyChar) (u := [c]) (v := cs)
      (List.cons_ne_nil _ _) (Matches.cls rfl) (dotStar_matches cs)
    rwa [List.cons_append, List.nil_append] at h

theorem eps_iff {w : List Char} : Matches RE.epsR w ↔ w = [] := by
  constructor
  · intro h; cases h; rfl
  · intro h; subst h; exact Matches.eps

theorem cat_iff {r s : RE} {w : List Char} :
    Matches (RE.cat r s) w ↔ ∃ u v, w = u ++ v ∧ Matches r u ∧ Matches s v := by
  constructor
  · intro h
    cases h with
    | cat h1 h2 => exact ⟨_, _, rfl, h1, h2⟩
  · rintro ⟨u, v, rfl, h1, h2⟩
    exact Matches.cat h1 h2

/-- A compiled pattern: the parsed regex core together with whether the
pattern was anchored at its start by a caret and at its end by a dollar. -/
structure Compiled : Type where
  anchorStart : Bool
  anchorEnd : Bool
  core : RE

/-- Modelled from the spec: the POSIX notion "some substring of the subject
matches the pattern", where a start anchor forces the matched substring to
begin at the start of the subject and an end anchor forces it to end at the
end of the subject. -/
def SpecMatchesList (c : Compiled) (w : List Char) : Prop :=
  ∃ u v x, w = u ++ v ++ x ∧ Matches c.core v ∧
    (c.anchorStart = true → u = []) ∧ (c.anchorEnd = true → x = [])

/-- The regex whose full-string language is the unanchored (or suitably
anchored) substring-search language of a compiled pattern. -/
def wrap (c : Compiled) : RE :=
  RE.cat (if c.anchorStart then RE.epsR else dotStar)
    (RE.cat c.core (if c.anchorEnd then RE.epsR else dotStar))

theorem wrap_iff (c : Compiled) (w : List Char) :
    Matches (wrap c) w ↔ SpecMatchesList c w := by
  unfold wrap SpecMatchesList
  constructor
  · intro h
    rcases cat_iff.mp h with ⟨u, y, rfl, hu, hy⟩
    rcases cat_iff.mp hy with ⟨v, x, rfl, hv, hx⟩
    refine ⟨u, v, x, (List.append_assoc u v x).symm, hv, ?_, ?_⟩
    · intro ha
      rw [ha] at hu
      exact eps_iff.mp (by simpa using hu)
    · intro ha
      rw [ha] at hx
      exact eps_iff.mp (by simpa using hx)
  · rintro ⟨u, v, x, rfl, hv, hu, hx⟩
    refine cat_iff.mpr ⟨u, v ++ x, List.append_assoc u v x, ?_, ?_⟩
    · cases ha : c.anchorStart with
      | true => rw [if_pos rfl, eps_iff]; exact hu ha
      | false => rw [if_neg (by simp)]; exact dotStar_matches u
    · refine cat_iff.mpr ⟨v, x, rfl, hv, ?_⟩
      cases ha : c.anchorEnd with
      | true => rw [if_pos rfl, eps_iff]; exact hx ha
      | false => rw [if_neg (by simp)]; exact dotStar_matches x

/-- Value of a maximal run of leading digits, with the rest of the input;
fails when no digit is present. -/
def parseDigits (s : List Char) : Option (Nat × List Char) :=
  match List.span Char.isDigit s with
  | ([], _) => none
  | (ds, rest) => some (ds.foldl (fun a c => a * 10 + (c.toNat - 48)) 0, rest)

/-- Items of a bracket expression up to the closing square bracket: a list
of inclusive character ranges (a single character is a one-point range).
Fails when the input ends before the closing bracket. -/
def bracketItems : List Char → Except Unit (List (Char × Char) × List Char)
| [] => Except.error ()
| ']' :: rest => Except.ok ([], rest)
| a :: '-' :: b :: rest =>
    if b = ']' then Except.ok ([(a, a), ('-', '-')], rest)
    else match bracketItems rest with
    | Except.error _ => Except.error ()
    | Except.ok (items, r) => Except.ok ((a, b) :: items, r)
| a :: rest =>
    match bracketItems rest with
    | Except.error _ => Except.error ()
    | Except.ok (items, r) => Except.ok ((a, a) :: items, r)

/-- Modelled from the spec: a POSIX bracket expression, after its opening
square bracket. Supports leading-caret negation, a literal right bracket
first, and ranges; an unterminated expression is a syntax error. -/
def parseBracket (s : List Char) : Except Unit ((Char → Bool) × List Char) :=
  let (neg, s1) : Bool × List Char :=
    match s with
    | '^' :: rest => (true, rest)
    | _ => (false, s)
  let (first, s2) : List (Char × Char) × List Char :=
    match s1 with
    | ']' :: rest => ([(']', ']')], rest)
    | _ => ([], s1)
  match bracketItems s2 with
  | Except.error _ => Except.error ()
  | Except.ok (items, rest) =>
      let all := first ++ items
      Except.ok ((fun c => xor neg (all.any (fun pr => pr.1 ≤ c && c ≤ pr.2))), rest)

/-- An interval r repeated exactly n more times in front of a tail. -/
def catN (r : RE) : Nat → RE → RE
| 0, tail => tail
| k + 1, tail => RE.cat r (catN r k tail)

/-- Zero to n further optional repetitions of r. -/
def optN (r : RE) : Nat → RE
| 0 => RE.epsR
| k + 1 => RE.cat (RE.alt RE.epsR r) (optN r k)

/-- Desugaring of ERE interval repetition: at least m times, and when a
finite upper bound n is given at most n times (error when n is below m). -/
def repRange (r : RE) (m : Nat) : Option Nat → Except Unit RE
| none => Except.ok (catN r m (RE.star r))
| some n => if n < m then Except.error () else Except.ok (catN r m (optN r (n - m)))

/-- An interval bound specification after its opening brace: m, or m comma,
or m comma n, followed by the closing brace. -/
def parseBound (r : RE) (s : List Char) : Except Unit (RE × List Char) :=
  match parseDigits s with
  | none => Except.error ()
  | some (m, s1) =>
    match s1 with
    | '\x7d' :: rest =>
        match repRange r m (some m) with
        | Except.error _ => Except.error ()
        | Except.ok r2 => Except.ok (r2, rest)
    | ',' :: '\x7d' :: rest =>
        match repRange r m none with
        | Except.error _ => Except.error ()
        | Except.ok r2 => Except.ok (r2, rest)
    | ',' :: s2 =>
        match parseDigits s2 with
        | some (n, '\x7d' :: rest) =>
            match repRange r m (some n) with
            | Except.error _ => Except.error ()
            | Except.ok r2 => Except.ok (r2, rest)
        | _ => Except.error ()
    | _ => Except.error ()

/-- Postfix repetition operators applied to an atom: star, plus, question
mark and interval bounds, possibly iterated. -/
def applyPostfix : Nat → RE → List Char → Except Unit (RE × List Char)
| 0, _, _ => Except.error ()
| fuel + 1, r, s =>
  match s with
  | '*' :: rest => applyPostfix fuel (RE.star r) rest
  | '+' :: rest => applyPostfix fuel (RE.cat r (RE.star r)) rest
  | '?' :: rest => applyPostfix fuel (RE.alt RE.epsR r) rest
  | '\x7b' :: rest =>
      match parseBound r rest with
      | Except.error _ => Except.error ()
      | Except.ok (r2, rest2) => applyPostfix fuel r2 rest2
  | _ => Except.ok (r, s)

mutual

/-- ERE alternation: branches separated by vertical bars. -/
def parseAlt : Nat → List Char → Except Unit (RE × List Char)
| 0, _ => Except.error ()
| fuel + 1, s =>
  match parseBranch fuel s with
  | Except.error _ => Except.error ()
  | Except.ok (r, rest) =>
    match rest with
    | '|' :: rest2 =>
        match parseAlt fuel rest2 with
        | Except.error _ => Except.error ()
        | Except.ok (r2, rest3) => Except.ok (RE.alt r r2, rest3)
    | _ => Except.ok (r, rest)

/-- ERE branch: a concatenation of pieces, empty at a branch boundary. -/
def parseBranch : Nat → List Char → Except Unit (RE × List Char)
| 0, _ => Except.error ()
| fuel + 1, s =>
  match s with
  | [] => Except.ok (RE.epsR, [])
  | ')' :: _ => Except.ok (RE.epsR, s)
  | '|' :: _ => Except.ok (RE.epsR, s)
  | _ =>
    match parseAtom fuel s with
    | Except.error _ => Except.error ()
    | Except.ok (r, rest) =>
      match applyPostfix fuel r rest with
      | Except.error _ => Except.error ()
      | Except.ok (r2, rest2) =>
        match parseBranch fuel rest2 with
        | Except.error _ => Except.error ()
        | Except.ok (r3, rest3) => Except.ok (RE.cat r2 r3, rest3)

/-- ERE atom: a parenthesised group, a bracket expression, the dot, an
escaped character, or an ordinary literal character; a repetition operator
with nothing to repeat, a stray closing parenthesis and a trailing
backslash are syntax errors. -/
def parseAtom : Nat → List Char → Except Unit (RE × List Char)
| 0, _ => Except.error ()
| fuel + 1, s =>
  match s with
  | '(' :: rest =>
      match parseAlt fuel rest with
      | Except.error _ => Except.error ()
      | Except.ok (r, rest2) =>
        match rest2 with
        | ')' :: rest3 => Except.ok (r, rest3)
        | _ => Except.error ()
  | '[' :: rest =>
      match parseBracket rest with
      | Except.error _ => Except.error ()
      | Except.ok (p, rest2) => Except.ok (RE.cls p, rest2)
  | '.' :: rest => Except.ok (anyChar, rest)
  | '\\' :: c :: rest => Except.ok (RE.cls (fun x => x == c), rest)
  | '\\' :: [] => Except.error ()
  | c :: rest =>
      if c == '|' || c == ')' || c == '*' || c == '+' || c == '?' || c == '\x7b'
      then Except.error ()
      else Except.ok (RE.cls (fun x => x == c), rest)
  | [] => Except.error ()

end

/-- Anchors recognised at the pattern boundaries: a leading caret anchors
the match start, an unescaped trailing dollar anchors the match end. -/
def stripAnchors (s : List Char) : Bool × Bool × List Char :=
  let (aS, s1) : Bool × List Char :=
    match s with
    | '^' :: rest => (true, rest)
    | _ => (false, s)
  match s1.reverse with
  | '$' :: '\\' :: _ => (aS, false, s1)
  | '$' :: rest => (aS, true, rest.reverse)
  | _ => (aS, false, s1)

/-- Fuel amply covering the recursion depth of the descent parser. -/
def fuelFor (s : List Char) : Nat := s.length * 4 + 16

/-- Modelled from the spec: compilation of a pattern string under the POSIX
extended dialect (the grammar of regcomp with REG_EXTENDED, which is not
part of this repository): parse boundary anchors, then the alternation
grammar, requiring the whole pattern to be consumed. -/
def compilePattern (p : String) : Except Unit Compiled :=
  let cs := p.toList
  match stripAnchors cs with
  | (aS, aE, core) =>
    match parseAlt (fuelFor cs) core with
    | Except.error _ => Except.error ()
    | Except.ok (r, []) => Except.ok ⟨aS, aE, r⟩
    | Except.ok (_, _ :: _) => Except.error ()

/-- The REG_EXTENDED compilation flag, as a bit flag. -/
def REG_EXTENDED : Nat := 1

/-- The REG_ICASE compilation flag (case-insensitive matching). -/
def REG_ICASE : Nat := 2

/-- The REG_NEWLINE compilation flag (newline-sensitive matching). -/
def REG_NEWLINE : Nat := 4

/-- The distinguished no-match status returned by regexec. -/
def REG_NOMATCH : Int := 1

/-- A nonzero pattern-syntax-error status returned by regcomp (the model
collapses the engine's various syntax-error codes into one). -/
def REG_BADPAT : Int := 2

/-- The process-wide state: the single slot `extern regex_t re` of the
source, holding the compiled pattern when one is usable. -/
structure RegexState : Type where
  slot : Option Compiled

/-- The state before any compile call. -/
def initState : RegexState := ⟨none⟩

/-- Case-insensitive closure of every character class of a regex, used to
model the effect REG_ICASE would have. -/
def icaseRE : RE → RE
| RE.emptyR => RE.emptyR
| RE.epsR => RE.epsR
| RE.cls p => RE.cls (fun c => p c.toLower || p c.toUpper)
| RE.cat r s => RE.cat (icaseRE r) (icaseRE s)
| RE.alt r s => RE.alt (icaseRE r) (icaseRE s)
| RE.star r => RE.star (icaseRE r)

/-- Case-insensitive closure of a compiled pattern. -/
def icaseC (c : Compiled) : Compiled :=
  ⟨c.anchorStart, c.anchorEnd, icaseRE c.core⟩

/-- Modelled from the spec: regcomp. Compiles the pattern under the
extended dialect (the wrapper always passes REG_EXTENDED; the basic
dialect is not modelled), honouring REG_ICASE, and stores the result in
the slot; on a syntax error it returns a nonzero status and leaves the
slot in an unusable error condition, as the spec permits. -/
def regcomp (st : RegexState) (pattern : String) (cflags : Nat) : Int × RegexState :=
  match compilePattern pattern with
  | Except.ok c =>
      (0, ⟨some (if cflags &&& REG_ICASE != 0 then icaseC c else c)⟩)
  | Except.error _ => (REG_BADPAT, ⟨none⟩)

/-- Modelled from the spec: regexec with nmatch zero and eflags zero, as
the wrapper calls it. Returns zero when some (suitably anchored) substring
of the input matches the stored pattern and the distinguished no-match
status otherwise; on an unusable slot the model returns no-match. -/
def regexec (st : RegexState) (input : String) : Int :=
  match st.slot with
  | none => REG_NOMATCH
  | some c => if rmatch (wrap c) input.toList = true then 0 else REG_NOMATCH

/-- The wrapper function compile from src/lib/regez/regez.h:
regcomp(&re, pattern, REG_EXTENDED), with the global slot passed
explicitly. -/
def compile (st : RegexState) (pattern : String) : Int × RegexState :=
  regcomp st pattern REG_EXTENDED

/-- The wrapper function isMatch from src/lib/regez/regez.h:
regexec(&re, input, 0, pmatch, 0), with the global slot passed
explicitly. -/
def isMatch (st : RegexState) (input : String) : Int :=
  regexec st input

/-- An isMatch call as a state transition: regexec receives the compiled
pattern through a pointer to const and the call mutates nothing, so the
call returns its status and the slot exactly as it was. -/
def isMatchCall (st : RegexState) (input : String) : Int × RegexState :=
  (isMatch st input, st)

/-- A state is usable when it holds a compiled pattern. -/
def usable (st : RegexState) : Prop := ∃ c, st.slot = some c

/-- Modelled from the spec: pattern string P matches somewhere in subject
string S under POSIX extended semantics, that is, P compiles and some
substring of S (respecting boundary anchors) is in the language of the
compiled pattern. -/
def PatternMatchesSomewhere (P S : String) : Prop :=
  ∃ c, compilePattern P = Except.ok c ∧ SpecMatchesList c S.toList

theorem ext_and_icase : REG_EXTENDED &&& REG_ICASE = 0 := rfl

theorem compile_slot_of_ok {P : String} {c : Compiled}
    (hc : compilePattern P = Except.ok c) (st : RegexState) :
    (compile st P).2 = ⟨some c⟩ ∧ (compile st P).1 = 0 := by
  rw [compile, regcomp, hc]
  exact ⟨rfl, rfl⟩

theorem isMatch_some (c : Compiled) (S : String) :
    isMatch ⟨some c⟩ S = if rmatch (wrap c) S.toList = true then 0 else REG_NOMATCH := rfl

/-- A sample stored compiled pattern matching the single character b. -/
def sampleB : Compiled := ⟨false, false, RE.cls (fun x => x == 'b')⟩

/-- Claim C1: after compile(P) succeeds, isMatch(S) returns the
distinguished no-match status exactly when no substring of S matches P
under the modelled POSIX extended semantics, and returns zero when some
substring of S matches P. -/
theorem c1_isMatch_nomatch_iff_no_substring (st : RegexState) (P S : String)
    (h : (compile st P).1 = 0) :
    (isMatch (compile st P).2 S = REG_NOMATCH ↔ ¬ PatternMatchesSomewhere P S) ∧
    (PatternMatchesSomewhere P S → isMatch (compile st P).2 S = 0) := by
  cases hc : compilePattern P with
  | error e =>
      cases e
      rw [compile, regcomp, hc] at h
      exact absurd h (by decide)
  | ok c =>
      obtain ⟨hst, -⟩ := compile_slot_of_ok hc st
      rw [hst, isMatch_some]
      have hrm : rmatch (wrap c) S.toList = true ↔ SpecMatchesList c S.toList :=
        (rmatch_iff _ _).trans (wrap_iff c S.toList)
      have hpm : PatternMatchesSomewhere P S ↔ SpecMatchesList c S.toList := by
        constructor
        · rintro ⟨c2, hc2, hs⟩
          rw [hc] at hc2
          injection hc2 with h2
          rw [h2]
          exact hs
        · intro hs
          exact ⟨c, hc, hs⟩
      by_cases hb : rmatch (wrap c) S.toList = true
      · rw [if_pos hb]
        refine ⟨⟨fun h0 => absurd h0 (by decide), ?_⟩, fun _ => rfl⟩
        intro hn
        exact absurd (hpm.mpr (hrm.mp hb)) hn
      · rw [if_neg hb]
        have hnpm : ¬ PatternMatchesSomewhere P S := fun hp => hb (hrm.mpr (hpm.mp hp))
        exact ⟨⟨fun _ => hnpm, fun _ => rfl⟩, fun hp => absurd hp hnpm⟩

/-- Claim C1 witness at pattern b and subject abc. -/
theorem c1_witness :
    (compile initState "b").1 = 0 ∧
    ((isMatch (compile initState "b").2 "abc" = REG_NOMATCH ↔
        ¬ PatternMatchesSomewhere "b" "abc") ∧
      (PatternMatchesSomewhere "b" "abc" → isMatch (compile initState "b").2 "abc" = 0)) :=
  ⟨rfl, c1_isMatch_nomatch_iff_no_substring initState "b" "abc" rfl⟩

/-- Claim C2: compiling a pattern that is invalid under the modelled
extended grammar returns the nonzero pattern-syntax-error status; in
particular the unbalanced bracket pattern does. -/
theorem c2_invalid_pattern_syntax_error (st : RegexState) (P : String)
    (h : compilePattern P = Except.error ()) :
    ((compile st P).1 = REG_BADPAT ∧ REG_BADPAT ≠ 0) ∧
      (compile initState "[").1 = REG_BADPAT := by
  refine ⟨⟨?_, by decide⟩, rfl⟩
  rw [compile, regcomp, h]

/-- Claim C2 witness at the unbalanced bracket pattern. -/
theorem c2_witness :
    compilePattern "[" = Except.error () ∧
      (((compile initState "[").1 = REG_BADPAT ∧ REG_BADPAT ≠ 0) ∧
        (compile initState "[").1 = REG_BADPAT) :=
  ⟨rfl, c2_invalid_pattern_syntax_error initState "[" rfl⟩

/-- Claim C3: compiling P1 then P2 and then matching S gives exactly the
result of compiling P2 alone and matching S, so S is tested only against
P2, never against P1. -/
theorem c3_overwrite_semantics (st : RegexState) (P1 P2 S : String)
    (h1 : (compile st P1).1 = 0) (h2 : (compile st P2).1 = 0) :
    isMatch (compile (compile st P1).2 P2).2 S = isMatch (compile st P2).2 S := rfl

/-- Claim C3 witness at patterns a then b and subject b. -/
theorem c3_witness :
    (compile initState "a").1 = 0 ∧ (compile initState "b").1 = 0 ∧
      isMatch (compile (compile initState "a").2 "b").2 "b" =
        isMatch (compile initState "b").2 "b" :=
  ⟨rfl, rfl, c3_overwrite_semantics initState "a" "b" "b" rfl rfl⟩

/-- Claim C4: a failing compile leaves the slot with no usable compiled
pattern and returns a nonzero status. -/
theorem c4_failed_compile_not_usable (st : RegexState) (P : String)
    (h : compilePattern P = Except.error ()) :
    ¬ usable (compile st P).2 ∧ (compile st P).1 ≠ 0 := by
  rw [compile, regcomp, h]
  refine ⟨?_, by decide⟩
  rintro ⟨c, hc⟩
  exact Option.noConfusion hc

/-- Claim C4 witness at the unbalanced bracket pattern. -/
theorem c4_witness :
    compilePattern "[" = Except.error () ∧
      (¬ usable (compile initState "[").2 ∧ (compile initState "[").1 ≠ 0) :=
  ⟨rfl, c4_failed_compile_not_usable initState "[" rfl⟩

/-- Claim C5: compiling the same pattern twice in a row and then matching
gives the same result as compiling it once and matching. -/
theorem c5_compile_idempotent (st : RegexState) (P S : String)
    (h : (compile st P).1 = 0) :
    isMatch (compile (compile st P).2 P).2 S = isMatch (compile st P).2 S := rfl

/-- Claim C5 witness at pattern a and subject x. -/
theorem c5_witness :
    (compile initState "a").1 = 0 ∧
      isMatch (compile (compile initState "a").2 "a").2 "x" =
        isMatch (compile initState "a").2 "x" :=
  ⟨rfl, c5_compile_idempotent initState "a" "x" rfl⟩

/-- Claim C6: isMatch returns zero whenever the stored pattern matches
somewhere within the input, with anchoring only as demanded by the
pattern; concretely, after compiling the alternation of foo and bar, the
subject containing bar matches and the subject baz does not. -/
theorem c6_unanchored_search :
    (∀ (st : RegexState) (c : Compiled) (S : String),
        st.slot = some c → SpecMatchesList c S.toList → isMatch st S = 0) ∧
    (compile initState "foo|bar").1 = 0 ∧
    isMatch (compile initState "foo|bar").2 "a bar b" = 0 ∧
    isMatch (compile initState "foo|bar").2 "baz" = REG_NOMATCH := by
  refine ⟨?_, rfl, rfl, rfl⟩
  intro st c S hslot hs
  obtain ⟨sl⟩ := st
  cases hslot
  rw [isMatch_some, if_pos ((rmatch_iff _ _).mpr ((wrap_iff c S.toList).mpr hs))]

/-- Claim C6 witness at the stored pattern for b and subject abc. -/
theorem c6_witness : isMatch ⟨some sampleB⟩ "abc" = 0 :=
  c6_unanchored_search.1 ⟨some sampleB⟩ sampleB "abc" rfl
    ⟨['a'], ['b'], ['c'], rfl, Matches.cls rfl, by simp [sampleB], by simp [sampleB]⟩

/-- Claim C7: compile always uses the extended dialect flag, and the
interval pattern on a compiles, matching aaa and rejecting a. -/
theorem c7_extended_dialect :
    (∀ (st : RegexState) (p : String), compile st p = regcomp st p REG_EXTENDED) ∧
    (compile initState "a\x7b2,3\x7d").1 = 0 ∧
    isMatch (compile initState "a\x7b2,3\x7d").2 "aaa" = 0 ∧
    isMatch (compile initState "a\x7b2,3\x7d").2 "a" = REG_NOMATCH :=
  ⟨fun _ _ => rfl, rfl, rfl, rfl⟩

/-- Claim C8: an isMatch call leaves the process-wide stored compiled
pattern unchanged and its status is exactly the read-only match result. -/
theorem c8_isMatch_frame (st : RegexState) (S : String) :
    (isMatchCall st S).2 = st ∧ (isMatchCall st S).1 = isMatch st S :=
  ⟨rfl, rfl⟩

/-- Claim C9: compile passes exactly the extended flag, whose bits exclude
the case-insensitive and newline flags, so matching is case sensitive; the
compiled lowercase pattern rejects the uppercase subject and accepts the
lowercase one. -/
theorem c9_case_sensitive :
    (∀ (st : RegexState) (p : String), compile st p = regcomp st p REG_EXTENDED) ∧
    REG_EXTENDED &&& REG_ICASE = 0 ∧ REG_EXTENDED &&& REG_NEWLINE = 0 ∧
    (compile initState "abc").1 = 0 ∧
    isMatch (compile initState "abc").2 "ABC" = REG_NOMATCH ∧
    isMatch (compile initState "abc").2 "abc" = 0 :=
  ⟨fun _ _ => rfl, rfl, rfl, rfl, rfl, rfl⟩

/-- Claim C10: two consecutive isMatch calls with no intervening compile
return equal status codes. -/
theorem c10_isMatch_deterministic (st : RegexState) (P S : String)
    (h : (compile st P).1 = 0) :
    (isMatchCall (isMatchCall (compile st P).2 S).2 S).1 =
      (isMatchCall (compile st P).2 S).1 := rfl

/-- Claim C10 witness at pattern a and subject a. -/
theorem c10_witness :
    (compile initState "a").1 = 0 ∧
      (isMatchCall (isMatchCall (compile initState "a").2 "a").2 "a").1 =
        (isMatchCall (compile initState "a").2 "a").1 :=
  ⟨rfl, c10_isMatch_deterministic initState "a" "a" rfl⟩

end Regez
